import Mathlib

/-!
Verification of the `harness.py` tool loop (mcp-ollama-demo).

The development shallowly embeds the decision loop of `harness.py`:

* `parse_first_json_object` — the JSON extraction step (`str.strip()` followed
  by `json.JSONDecoder().raw_decode`, which decodes the first complete JSON
  value and ignores trailing text).  JSON numbers are modelled as integers;
  float literals, `NaN`/`Infinity` and surrogate-pair escapes are outside the
  model.
* `looks_like_deferred_action_chat` — the regex heuristic for stalling chat
  replies (ASCII word characters; the Python regex additionally treats
  non-ASCII letters as word characters, which no claim depends on).
* `decide_with_repair`, the per-step body of `run`, and the step loop of
  `run` itself.  The two external collaborators (the Ollama chat endpoint and
  the MCP tool session) are oracles, packaged in `Env`: each model call and
  each tool call is an arbitrary answer-or-raise function, indexed by how many
  calls of that kind happened before.  `traceFn` stands for
  `traceback.format_exc(limit=3)`, whose text is runtime-dependent.
  A Python exception is a `PyErr` (its class name and message).
-/

namespace Harness

/-! ### Characters -/

/-- The character `\x7b` (opening curly bracket). -/
def lbrace : Char := Char.ofNat 123

/-- The character `\x7d` (closing curly bracket). -/
def rbrace : Char := Char.ofNat 125

/-- The double-quote character. -/
def quoteC : Char := Char.ofNat 34

/-- The backslash character. -/
def backslashC : Char := Char.ofNat 92

/-- The apostrophe character (used by Python `repr` of strings). -/
def aposC : Char := Char.ofNat 39

/-- The apostrophe, as a string. -/
def aposS : String := String.singleton aposC

/-- ASCII decimal digit test (the only digits Python JSON numbers use). -/
def isDigitC (c : Char) : Bool := 48 ≤ c.toNat && c.toNat ≤ 57

/-- JSON inter-token whitespace, as in Python `json`: space, tab, LF, CR. -/
def isJsonWs (c : Char) : Bool := c = ' ' || c = '\t' || c = '\n' || c = '\r'

/-- Whitespace removed by Python `str.strip()` (ASCII part). -/
def isStripWs (c : Char) : Bool := isJsonWs c || c = Char.ofNat 11 || c = Char.ofNat 12

/-- Drop leading JSON whitespace. -/
def skipWs (cs : List Char) : List Char := cs.dropWhile isJsonWs

/-- Python `str.strip()`: drop leading and trailing whitespace. -/
def pyStrip (cs : List Char) : List Char :=
  ((cs.dropWhile isStripWs).reverse.dropWhile isStripWs).reverse

/-- Value of a hexadecimal digit, if it is one (for `\u` escapes). -/
def hexDigitVal (c : Char) : Option Nat :=
  if 48 ≤ c.toNat ∧ c.toNat ≤ 57 then some (c.toNat - 48)
  else if 97 ≤ c.toNat ∧ c.toNat ≤ 102 then some (c.toNat - 87)
  else if 65 ≤ c.toNat ∧ c.toNat ≤ 70 then some (c.toNat - 55)
  else none

/-! ### JSON values

Python `json.loads` turns a JSON object into a `dict`; a duplicate key keeps
the LAST occurrence.  We keep the member list in source order and make the
lookup (`pyGet`, below) prefer the last binding, which is observationally the
same. -/

/-- A decoded JSON value.  `num` carries an integer (float syntax is outside
the model). -/
inductive Json where
  | null : Json
  | bool : Bool → Json
  | num : Int → Json
  | str : String → Json
  | arr : List Json → Json
  | obj : List (String × Json) → Json

/-! ### The decoder

`json.JSONDecoder().raw_decode` is a strict recursive-descent scanner: it
decodes exactly one JSON value starting at index 0 and returns it together
with the index where it stopped; trailing characters are left alone.  The
embedding scans a `List Char` and returns the unconsumed suffix.  Recursion is
structural on a fuel counter; `jsonDecode` supplies `length + 1` fuel, which
the round-trip theorems below show is enough for any (rendered) value. -/

/-- Scan a string body after the opening quote.  Strict mode: an unescaped
control character (below 0x20) is an error, exactly as in Python.  Escapes
cover the JSON simple escapes and `\uXXXX` (non-surrogate). -/
def parseStrAux : List Char → List Char → Option (List Char × List Char)
  | _, [] => none
  | acc, c :: rest =>
    if c = quoteC then some (acc.reverse, rest)
    else if c = backslashC then
      match rest with
      | [] => none
      | e :: r2 =>
        if e = quoteC then parseStrAux (quoteC :: acc) r2
        else if e = backslashC then parseStrAux (backslashC :: acc) r2
        else if e = '/' then parseStrAux ('/' :: acc) r2
        else if e = 'b' then parseStrAux (Char.ofNat 8 :: acc) r2
        else if e = 'f' then parseStrAux (Char.ofNat 12 :: acc) r2
        else if e = 'n' then parseStrAux ('\n' :: acc) r2
        else if e = 'r' then parseStrAux ('\r' :: acc) r2
        else if e = 't' then parseStrAux ('\t' :: acc) r2
        else if e = 'u' then
          match r2 with
          | h1 :: h2 :: h3 :: h4 :: r3 =>
            match hexDigitVal h1, hexDigitVal h2, hexDigitVal h3, hexDigitVal h4 with
            | some a, some b, some c2, some d =>
              parseStrAux (Char.ofNat (((a * 16 + b) * 16 + c2) * 16 + d) :: acc) r3
            | _, _, _, _ => none
          | _ => none
        else none
    else if c.toNat < 32 then none
    else parseStrAux (c :: acc) rest

/-- Consume a run of decimal digits, accumulating their value. -/
def digitsVal : Nat → List Char → Nat × List Char
  | acc, [] => (acc, [])
  | acc, c :: rest =>
    if isDigitC c then digitsVal (acc * 10 + (c.toNat - 48)) rest else (acc, c :: rest)

mutual
/-- Decode one JSON value at the head of the input (no leading whitespace
skipping, as in `raw_decode`).  Integer grammar `-?(0|[1-9][0-9]*)`, with a
leading `0` ending the literal, as in Python. -/
def parseVal : Nat → List Char → Option (Json × List Char)
  | 0, _ => none
  | fuel + 1, cs =>
    match cs with
    | [] => none
    | c :: rest =>
      if c = lbrace then
        match skipWs rest with
        | [] => none
        | d :: r3 => if d = rbrace then some (.obj [], r3) else parseMembers fuel (d :: r3)
      else if c = '[' then
        match skipWs rest with
        | [] => none
        | d :: r3 => if d = ']' then some (.arr [], r3) else parseItems fuel (d :: r3)
      else if c = quoteC then
        match parseStrAux [] rest with
        | some (sc, r2) => some (.str (String.mk sc), r2)
        | none => none
      else if c = 't' then
        match rest with
        | 'r' :: 'u' :: 'e' :: r2 => some (.bool true, r2)
        | _ => none
      else if c = 'f' then
        match rest with
        | 'a' :: 'l' :: 's' :: 'e' :: r2 => some (.bool false, r2)
        | _ => none
      else if c = 'n' then
        match rest with
        | 'u' :: 'l' :: 'l' :: r2 => some (.null, r2)
        | _ => none
      else if c = '-' then
        match rest with
        | [] => none
        | d :: r2 =>
          if d = '0' then some (.num 0, r2)
          else if isDigitC d then
            let p := digitsVal (d.toNat - 48) r2
            some (.num (-(p.1 : Int)), p.2)
          else none
      else if c = '0' then some (.num 0, rest)
      else if isDigitC c then
        let p := digitsVal (c.toNat - 48) rest
        some (.num (p.1 : Int), p.2)
      else none

/-- Decode the non-empty item list of an array, positioned at the first item. -/
def parseItems : Nat → List Char → Option (Json × List Char)
  | 0, _ => none
  | fuel + 1, cs =>
    match parseVal fuel cs with
    | none => none
    | some (v, r2) =>
      match skipWs r2 with
      | [] => none
      | d :: r3 =>
        if d = ',' then
          match parseItems fuel (skipWs r3) with
          | some (Json.arr vs, r4) => some (.arr (v :: vs), r4)
          | _ => none
        else if d = ']' then some (.arr [v], r3)
        else none

/-- Decode the non-empty member list of an object, positioned at the first
key. -/
def parseMembers : Nat → List Char → Option (Json × List Char)
  | 0, _ => none
  | fuel + 1, cs =>
    match cs with
    | [] => none
    | c :: rest =>
      if c = quoteC then
        match parseStrAux [] rest with
        | none => none
        | some (kc, r2) =>
          match skipWs r2 with
          | ':' :: r3 =>
            (match parseVal fuel (skipWs r3) with
             | none => none
             | some (v, r4) =>
               match skipWs r4 with
               | [] => none
               | d :: r5 =>
                 if d = ',' then
                   match parseMembers fuel (skipWs r5) with
                   | some (Json.obj ms, r6) => some (.obj ((String.mk kc, v) :: ms), r6)
                   | _ => none
                 else if d = rbrace then some (.obj [(String.mk kc, v)], r5)
                 else none)
          | _ => none
      else none
end

/-- Decode the first JSON value of the input, with enough fuel for any input
of this length. -/
def jsonDecode (cs : List Char) : Option (Json × List Char) :=
  parseVal (cs.length + 1) cs

/-- Embedding of `parse_first_json_object` from `harness.py`: strip the text,
then decode the first JSON value of what remains, ignoring trailing content. -/
def parse_first_json_object (s : String) : Option Json :=
  match jsonDecode (pyStrip s.data) with
  | some (v, _) => some v
  | none => none

example : parse_first_json_object "  \x7b\"mode\": \"chat\", \"message\": \"hi\"\x7d tail " =
    some (.obj [("mode", .str "chat"), ("message", .str "hi")]) := rfl

example : parse_first_json_object "I cannot do that" = none := rfl

example : parse_first_json_object "[1, -25, \x7b\x7d] junk" =
    some (.arr [.num 1, .num (-25), .obj []]) := rfl

example : parse_first_json_object "\x7b\"a\": \"x\\n\"\x7d" =
    some (.obj [("a", .str ("x" ++ String.singleton '\n'))]) := rfl

example : parse_first_json_object "\x7b\"a\": 1" = none := rfl

/-! ### Canonical rendering

The specification side of claim C3: a "raw model output containing a single
valid structured value surrounded by extraneous text" is modelled as
whitespace, then the canonical serialization of a `Json` value, then arbitrary
trailing text.  `render` is that canonical serialization (minimal JSON, no
inter-token whitespace). -/

/-- The decimal digit characters of a natural number, most significant
first. -/
def natChars (n : Nat) : List Char :=
  if h : n < 10 then [Char.ofNat (48 + n)]
  else natChars (n / 10) ++ [Char.ofNat (48 + n % 10)]
termination_by n
decreasing_by exact Nat.div_lt_self (by omega) (by omega)

/-- A rendered JSON string: quote, body, quote (clean bodies need no
escaping; see `cleanStr`). -/
def renderStr (s : String) : List Char := quoteC :: s.data ++ [quoteC]

mutual
/-- Canonical serialization of a value. -/
def render : Json → List Char
  | .null => "null".data
  | .bool b => (cond b "true" "false").data
  | .num i => if i < 0 then '-' :: natChars i.natAbs else natChars i.toNat
  | .str s => renderStr s
  | .arr l => '[' :: renderItems l ++ [']']
  | .obj l => lbrace :: renderMembers l ++ [rbrace]

/-- Comma-separated serialized items. -/
def renderItems : List Json → List Char
  | [] => []
  | [v] => render v
  | v :: w :: rest => render v ++ ',' :: renderItems (w :: rest)

/-- Comma-separated serialized `key: value` members. -/
def renderMembers : List (String × Json) → List Char
  | [] => []
  | [(k, v)] => renderStr k ++ ':' :: render v
  | (k, v) :: m :: rest => renderStr k ++ ':' :: render v ++ ',' :: renderMembers (m :: rest)
end

/-- A character that renders into a string body verbatim: printable, not the
quote, not the backslash. -/
def cleanChar (c : Char) : Bool := 32 ≤ c.toNat && c ≠ quoteC && c ≠ backslashC

/-- A string whose canonical rendering needs no escapes. -/
def cleanStr (s : String) : Bool := s.data.all cleanChar

mutual
/-- A value all of whose strings are `cleanStr` (so `render` is faithful). -/
def cleanJson : Json → Bool
  | .null => true
  | .bool _ => true
  | .num _ => true
  | .str s => cleanStr s
  | .arr l => cleanItems l
  | .obj l => cleanMems l

/-- `cleanJson` on every item. -/
def cleanItems : List Json → Bool
  | [] => true
  | v :: rest => cleanJson v && cleanItems rest

/-- `cleanStr` every key and `cleanJson` every value. -/
def cleanMems : List (String × Json) → Bool
  | [] => true
  | (k, v) :: rest => cleanStr k && cleanJson v && cleanMems rest
end

/-! ### The deferred-action detector

`DEFERRED_ACTION_RE` in `harness.py` is
`\b(let me|i(?:'| wi)ll|allow me|i can check|i can look|i can verify)\b`,
compiled with `re.IGNORECASE` and applied with `re.search`.  The alternation
expands to seven fixed phrases, every one starting and ending with a word
character, so a match is: an occurrence of a phrase whose neighbouring
characters (if any) are not word characters.  Case-insensitivity is modelled
by lowercasing the message (the phrases are lowercase). -/

/-- Python regex word character (ASCII part): letter, digit or underscore. -/
def isWordChar (c : Char) : Bool := c.isAlphanum || c = '_'

/-- The expanded alternatives of `DEFERRED_ACTION_RE`, lowercase. -/
def deferredPhrases : List (List Char) :=
  [("let me").data, ("i" ++ aposS ++ "ll").data, ("i will").data, ("allow me").data,
   ("i can check").data, ("i can look").data, ("i can verify").data]

/-- The phrase matches at the head of `rest` and the character after it (if
any) is not a word character — the trailing `\b`. -/
def phraseAt : List Char → List Char → Bool
  | [], [] => true
  | [], c :: _ => !isWordChar c
  | _ :: _, [] => false
  | p :: ps, c :: cs => p = c && phraseAt ps cs

/-- Scan every position; `prev` is the character before the current position
(for the leading `\b`). -/
def searchStall : Option Char → List Char → Bool
  | _, [] => false
  | prev, c :: cs =>
    ((match prev with | none => true | some d => !isWordChar d) &&
      deferredPhrases.any fun p => phraseAt p (c :: cs))
    || searchStall (some c) cs

/-- Embedding of `looks_like_deferred_action_chat` from `harness.py`. -/
def looks_like_deferred_action_chat (message : String) : Bool :=
  message ≠ "" && searchStall none (message.data.map Char.toLower)

example : looks_like_deferred_action_chat "Let me check the files." = true := rfl
example : looks_like_deferred_action_chat "I will look into it" = true := rfl
example : looks_like_deferred_action_chat "The answer is 42." = false := rfl
example : looks_like_deferred_action_chat "billing" = false := rfl
example : looks_like_deferred_action_chat "" = false := rfl

/-! ### The tool loop

`run(prompt, max_steps)` seeds the history with the user prompt and iterates
`for step in range(max_steps)`.  The whole loop body sits inside one
`try`/`except Exception` whose handler returns a diagnostic string.  The two
collaborators are oracles in `Env`; `max_steps` is an `Int` (a Python int may
be non-positive, in which case `range` is empty). -/

/-- One message of the rolling conversation history. -/
structure Message where
  role : String
  content : String
deriving DecidableEq

/-- A raised Python exception: class name and message. -/
structure PyErr where
  kind : String
  msg : String
deriving DecidableEq

/-- The external collaborators of one `run`: `decideFn` is the n-th primary
`ollama_decide` call (given the history it receives), `repairFn` the n-th
`ollama_repair_json` call (given the text to repair), `toolFn` the n-th
`session.call_tool` (given tool name and argument object; the returned string
is the joined text content).  `.error e` models the call raising `e`.
`traceFn` is the text `traceback.format_exc(limit=3)` produces for an
exception. -/
structure Env where
  decideFn : List Message → Nat → Except PyErr String
  repairFn : String → Nat → Except PyErr String
  toolFn : Json → Json → Nat → Except PyErr String
  traceFn : PyErr → String

/-- Loop state: the history plus how many primary model calls, repair calls
and tool calls have been made. -/
structure RunState where
  messages : List Message
  nDecide : Nat
  nRepair : Nat
  nTool : Nat

/-- Outcome of one loop iteration: `return` a string, raise an exception
(caught at the loop boundary), or fall through to the next iteration. -/
inductive StepRes where
  | retS : String → StepRes
  | err : PyErr → StepRes
  | cont : StepRes

/-- `dict.get(key)` on the decoded object: `none` when the key is missing; a
JSON `null` value decodes to Python `None` and is returned as `some .null`.
A duplicate key keeps the last binding, as `json.loads` does. -/
def pyGet : List (String × Json) → String → Option Json
  | [], _ => none
  | (k, v) :: rest, key =>
    match pyGet rest key with
    | some r => some r
    | none => if k = key then some v else none

/-- `dict.get(key)` where a missing key and a `null` value are both Python
`None` (modelled by `.null`). -/
def getAttr (d : List (String × Json)) (key : String) : Json :=
  match pyGet d key with
  | none => .null
  | some v => v

/-- Python truthiness of a decoded JSON value. -/
def truthy : Json → Bool
  | .null => false
  | .bool b => b
  | .num n => n ≠ 0
  | .str s => s ≠ ""
  | .arr l => !l.isEmpty
  | .obj l => !l.isEmpty

/-- Python `==` between a decoded value and a string literal. -/
def isStrEq (v : Json) (s : String) : Bool :=
  match v with
  | .str t => t = s
  | _ => false

/-- `mode = decision.get("mode")` with the legacy fallback: when `mode` is
`None`, an object carrying a non-`None` `tool` field is an action, anything
else a chat. -/
def resolveMode (d : List (String × Json)) : Json :=
  match getAttr d "mode" with
  | .null =>
    (match getAttr d "tool" with
     | .null => .str "chat"
     | _ => .str "action")
  | m => m

/-- `message = decision.get("message") or decision.get("final", "")`: the
`message` value if truthy, else the `final` value (`""` when the key is
missing, `None`/`.null` when it is an explicit `null`). -/
def resolveMessage (d : List (String × Json)) : Json :=
  if truthy (getAttr d "message") then getAttr d "message"
  else
    match pyGet d "final" with
    | none => .str ""
    | some v => v

/-- The Python type name of a decoded value (for the `AttributeError`
message). -/
def pyTypeName : Json → String
  | .null => "NoneType"
  | .bool _ => "bool"
  | .num _ => "int"
  | .str _ => "str"
  | .arr _ => "list"
  | .obj _ => "dict"

mutual
/-- Python `repr` of a decoded value (string bodies shown verbatim; only the
shape matters to the diagnostics). -/
def pyRepr : Json → String
  | .null => "None"
  | .bool true => "True"
  | .bool false => "False"
  | .num n => toString n
  | .str s => aposS ++ s ++ aposS
  | .arr l => "[" ++ String.intercalate ", " (pyReprList l) ++ "]"
  | .obj l => "\x7b" ++ String.intercalate ", " (pyReprMems l) ++ "\x7d"

/-- `repr` of each item. -/
def pyReprList : List Json → List String
  | [] => []
  | v :: rest => pyRepr v :: pyReprList rest

/-- `repr` of each member. -/
def pyReprMems : List (String × Json) → List String
  | [] => []
  | (k, v) :: rest => (aposS ++ k ++ aposS ++ ": " ++ pyRepr v) :: pyReprMems rest
end

/-- Embedding of `decide_with_repair` from `harness.py`.  Returns the parsed
decision together with the text it was parsed from, plus the updated primary
and repair call counters. -/
def decide_with_repair (env : Env) (msgs : List Message) (nD nR : Nat) :
    Except PyErr (Json × String) × Nat × Nat :=
  match env.decideFn msgs nD with
  | .error e => (.error e, nD + 1, nR)
  | .ok raw =>
    match parse_first_json_object raw with
    | some obj => (.ok (obj, raw), nD + 1, nR)
    | none =>
      match env.repairFn raw nR with
      | .error e => (.error e, nD + 1, nR + 1)
      | .ok repaired =>
        match parse_first_json_object repaired with
        | some obj => (.ok (obj, repaired), nD + 1, nR + 1)
        | none =>
          (.error ⟨"RuntimeError",
            "Ollama returned malformed JSON and repair failed.\nOriginal:\n" ++ raw
              ++ "\n\nRepaired:\n" ++ repaired⟩, nD + 1, nR + 1)

/-- The corrective instruction appended when a stalling chat is deferred. -/
def corrective : Message :=
  ⟨"user", "Do not narrate intent. Either call one tool now, or return a direct final answer based on available context."⟩

/-- `"\n\n".join(f"Result (idx+1):\n(txt)")` over the collected tool
results. -/
def labelResults (rs : List String) : String :=
  String.intercalate "\n\n"
    ((rs.enum).map fun p => "Result " ++ toString (p.1 + 1) ++ ":\n" ++ p.2)

/-- Is the value a JSON object (a Python `dict`)? -/
def isObjJson : Json → Bool
  | .obj _ => true
  | _ => false

/-- The `for one_args in args_list` loop: invoke the tool session adapter
once per argument object, sequentially, in order; a raising call aborts the
loop.  Returns the collected texts and the updated tool-call counter. -/
def runTools (env : Env) (tname : Json) (nT : Nat) :
    List Json → Except PyErr (List String) × Nat
  | [] => (.ok [], nT)
  | a :: rest =>
    match env.toolFn tname a nT with
    | .error e => (.error e, nT + 1)
    | .ok r =>
      match runTools env tname (nT + 1) rest with
      | (.ok rs, nT2) => (.ok (r :: rs), nT2)
      | (.error e, nT2) => (.error e, nT2)

/-- The loop body after a successful parse: mode dispatch, the chat branch
with the deferred-action check, and the action branch with the shape check,
the batch ceiling, the tool loop and the fold-back.  `st1` already carries
the updated call counters. -/
def afterParse (env : Env) (st1 : RunState) (step : Nat) (maxSteps : Int)
    (decision : Json) (raw : String) : StepRes × RunState :=
  match decision with
  | .obj d =>
    let mode := resolveMode d
    if isStrEq mode "chat" then
      let message := resolveMessage d
      if truthy message then
        match message with
        | .str m =>
          if looks_like_deferred_action_chat m then
            if (step : Int) < maxSteps - 1 then
              (.cont, { st1 with messages := st1.messages ++ [⟨"assistant", raw⟩, corrective] })
            else (.retS m, st1)
          else (.retS m, st1)
        | _ => (.err ⟨"TypeError", "expected string or bytes-like object"⟩, st1)
      else (.retS ("(empty chat response)\nRaw model output:\n" ++ raw), st1)
    else if isStrEq mode "action" then
      let tname := getAttr d "tool"
      if truthy tname then
        let args : Json :=
          match pyGet d "args" with
          | none => .obj []
          | some v => v
        let argsListO : Option (List Json) :=
          match args with
          | .obj ms => some [Json.obj ms]
          | .arr l => if l.all isObjJson then some l else none
          | _ => none
        match argsListO with
        | none =>
          (.err ⟨"RuntimeError",
            "Action args must be a JSON object or a list of JSON objects.\nRaw:\n" ++ raw⟩, st1)
        | some argsList =>
          if argsList.length > 20 then
            (.err ⟨"RuntimeError",
              "Refusing oversized batched action with " ++ toString argsList.length
                ++ " calls (max 20)."⟩, st1)
          else
            match runTools env tname st1.nTool argsList with
            | (.error e, nT) => (.err e, { st1 with nTool := nT })
            | (.ok rs, nT) =>
              (.cont,
                { st1 with
                  nTool := nT,
                  messages := st1.messages ++
                    [⟨"assistant", raw⟩,
                     ⟨"user", "Tool result:\n" ++ labelResults rs⟩] })
      else (.err ⟨"RuntimeError", "Action mode missing tool name.\nRaw:\n" ++ raw⟩, st1)
    else
      (.err ⟨"RuntimeError", "Invalid decision mode: " ++ pyRepr mode ++ "\nRaw:\n" ++ raw⟩, st1)
  | other =>
    (.err ⟨"AttributeError",
      aposS ++ pyTypeName other ++ aposS ++ " object has no attribute " ++ aposS ++ "get" ++ aposS⟩,
     st1)

/-- One iteration of `for step in range(max_steps)`. -/
def stepBody (env : Env) (st : RunState) (step : Nat) (maxSteps : Int) :
    StepRes × RunState :=
  match decide_with_repair env st.messages st.nDecide st.nRepair with
  | (.error e, nD, nR) => (.err e, { st with nDecide := nD, nRepair := nR })
  | (.ok (decision, raw), nD, nR) =>
    afterParse env { st with nDecide := nD, nRepair := nR } step maxSteps decision raw

/-- The step loop: `rem` iterations remain, `step` is the current index.  A
raised exception becomes the `"Tool loop error."` diagnostic (the
`except Exception` handler); running out of iterations yields the fixed
stopped message. -/
def runAux (env : Env) (maxSteps : Int) : Nat → Nat → RunState → String × RunState
  | 0, _, st => ("(stopped: max steps reached)", st)
  | rem + 1, step, st =>
    match stepBody env st step maxSteps with
    | (.retS s, st2) => (s, st2)
    | (.err e, st2) =>
      ("Tool loop error.\n" ++ e.kind ++ ": " ++ e.msg ++ "\n" ++ env.traceFn e, st2)
    | (.cont, st2) => runAux env maxSteps rem (step + 1) st2

/-- The history at the top of the loop: just the user prompt. -/
def initState (prompt : String) : RunState := ⟨[⟨"user", prompt⟩], 0, 0, 0⟩

/-- Embedding of `run` from `harness.py`, also exposing the final counters. -/
def runFull (env : Env) (prompt : String) (maxSteps : Int) : String × RunState :=
  runAux env maxSteps maxSteps.toNat 0 (initState prompt)

/-- `run(prompt, max_steps)`: the string handed back to the caller. -/
def run (env : Env) (prompt : String) (maxSteps : Int) : String :=
  (runFull env prompt maxSteps).1

/-- A scripted environment realizing the worked example of the spec: one
`list_dir` action, then a closing chat answer. -/
def demoEnv : Env :=
  { decideFn := fun _ n =>
      if n = 0 then
        .ok "\x7b\"mode\":\"action\",\"tool\":\"list_dir\",\"args\":\x7b\"dir\":\".\"\x7d\x7d"
      else .ok "\x7b\"mode\":\"chat\",\"message\":\"The workspace contains a.txt and b.txt.\"\x7d"
    repairFn := fun _ _ => .error ⟨"RuntimeError", "unused"⟩
    toolFn := fun _ _ _ => .ok "a.txt\nb.txt"
    traceFn := fun _ => "Traceback (most recent call last):\n  ...\n" }

example : run demoEnv "list files in workspace" 8 =
    "The workspace contains a.txt and b.txt." := rfl

example :
    (runFull demoEnv "list files in workspace" 8).2.messages.map Message.content =
      ["list files in workspace",
       "\x7b\"mode\":\"action\",\"tool\":\"list_dir\",\"args\":\x7b\"dir\":\".\"\x7d\x7d",
       "Tool result:\nResult 1:\na.txt\nb.txt"] := rfl

example : (runFull demoEnv "list files in workspace" 8).2.nTool = 1 := rfl

/-! ### Scripted environments used by the witnesses -/

/-- An environment whose first model call raises a connection error. -/
def envRaise : Env :=
  { decideFn := fun _ _ => .error ⟨"ConnectionError", "connection refused"⟩
    repairFn := fun _ _ => .ok ""
    toolFn := fun _ _ _ => .ok ""
    traceFn := fun _ => "Traceback (most recent call last):\n  ...\n" }

/-- An environment that answers every decision with the same single-tool
action, so no iteration ever returns. -/
def envAllAction : Env :=
  { decideFn := fun _ _ => .ok "\x7b\"mode\":\"action\",\"tool\":\"list_dir\",\"args\":\x7b\x7d\x7d"
    repairFn := fun _ _ => .ok ""
    toolFn := fun _ _ _ => .ok "ok"
    traceFn := fun _ => "" }

/-- An environment that immediately answers with a plain chat message. -/
def envChat : Env :=
  { decideFn := fun _ _ => .ok "\x7b\"mode\":\"chat\",\"message\":\"Paris is the capital of France.\"\x7d"
    repairFn := fun _ _ => .ok ""
    toolFn := fun _ _ _ => .ok ""
    traceFn := fun _ => "" }

/-- An environment that always narrates intent instead of acting. -/
def envStall : Env :=
  { decideFn := fun _ _ => .ok "\x7b\"mode\":\"chat\",\"message\":\"Let me check the files.\"\x7d"
    repairFn := fun _ _ => .ok ""
    toolFn := fun _ _ _ => .ok ""
    traceFn := fun _ => "" }

/-- An environment whose model output is malformed but whose repair output is
a well-formed stalling chat. -/
def envRepairStall : Env :=
  { decideFn := fun _ _ => .ok "chat: let me look"
    repairFn := fun _ _ => .ok "\x7b\"mode\":\"chat\",\"message\":\"I will look into it.\"\x7d"
    toolFn := fun _ _ _ => .ok ""
    traceFn := fun _ => "" }

/-- A two-call batched action environment; the tool answers `out<n>` on its
`n`-th invocation. -/
def envBatch : Env :=
  { decideFn := fun _ _ =>
      .ok "\x7b\"mode\":\"action\",\"tool\":\"echo\",\"args\":[\x7b\"i\":1\x7d,\x7b\"i\":2\x7d]\x7d"
    repairFn := fun _ _ => .ok ""
    toolFn := fun _ _ n => .ok ("out" ++ toString n)
    traceFn := fun _ => "" }

/-- An environment issuing one oversized batch: 21 empty argument objects. -/
def envOversized : Env :=
  { decideFn := fun _ _ =>
      .ok ("\x7b\"mode\":\"action\",\"tool\":\"echo\",\"args\":[" ++
        "\x7b\x7d,\x7b\x7d,\x7b\x7d,\x7b\x7d,\x7b\x7d,\x7b\x7d,\x7b\x7d,\x7b\x7d,\x7b\x7d,\x7b\x7d," ++
        "\x7b\x7d,\x7b\x7d,\x7b\x7d,\x7b\x7d,\x7b\x7d,\x7b\x7d,\x7b\x7d,\x7b\x7d,\x7b\x7d,\x7b\x7d," ++
        "\x7b\x7d]\x7d")
    repairFn := fun _ _ => .ok ""
    toolFn := fun _ _ n => .ok ("out" ++ toString n)
    traceFn := fun _ => "tb" }

/-- An environment whose model output and repair output are both
unparseable. -/
def envDoubleBad : Env :=
  { decideFn := fun _ _ => .ok "oops"
    repairFn := fun _ _ => .ok "still not json"
    toolFn := fun _ _ _ => .ok ""
    traceFn := fun _ => "" }

/-! ### Claim C3: lemmas about digits and rendered strings -/

/-- Positional value accumulated over a digit string (what `digitsVal`
computes on a pure digit run). -/
def digitsAccVal : Nat → List Char → Nat
  | acc, [] => acc
  | acc, c :: r => digitsAccVal (acc * 10 + (c.toNat - 48)) r


/-- The digit character of `48 + k`, `k < 10`: its code point and digit-ness. -/
theorem digitChar_spec (k : Nat) (h : k < 10) :
    (Char.ofNat (48 + k)).toNat = 48 + k ∧ isDigitC (Char.ofNat (48 + k)) = true := by
  interval_cases k <;> exact ⟨by decide, by decide⟩

/-- A nonzero digit renders as a character other than `'0'`. -/
theorem digitChar_ne_zero (k : Nat) (h1 : 1 ≤ k) (h2 : k < 10) :
    Char.ofNat (48 + k) ≠ '0' := by
  interval_cases k <;> decide

/-- Unequal code points give unequal characters. -/
theorem char_ne_of_toNat_ne {c x : Char} (h : c.toNat ≠ x.toNat) : c ≠ x :=
  fun he => h (congrArg Char.toNat he)

/-- A decimal digit character is none of the characters the value scanner
dispatches on first, is not whitespace, and is not a closing delimiter. -/
theorem digit_head_facts {c : Char} (hd : isDigitC c = true) :
    c ≠ lbrace ∧ c ≠ '[' ∧ c ≠ quoteC ∧ c ≠ 't' ∧ c ≠ 'f' ∧ c ≠ 'n' ∧ c ≠ '-' ∧
    isJsonWs c = false ∧ c ≠ ']' ∧ c ≠ rbrace ∧ c ≠ ',' := by
  have hb : 48 ≤ c.toNat ∧ c.toNat ≤ 57 := by
    simpa [isDigitC, Bool.and_eq_true, decide_eq_true_eq] using hd
  refine ⟨?_, ?_, ?_, ?_, ?_, ?_, ?_, ?_, ?_, ?_, ?_⟩
  · exact char_ne_of_toNat_ne (by rw [show lbrace.toNat = 123 from by decide]; omega)
  · exact char_ne_of_toNat_ne (by rw [show ('[').toNat = 91 from by decide]; omega)
  · exact char_ne_of_toNat_ne (by rw [show quoteC.toNat = 34 from by decide]; omega)
  · exact char_ne_of_toNat_ne (by rw [show ('t').toNat = 116 from by decide]; omega)
  · exact char_ne_of_toNat_ne (by rw [show ('f').toNat = 102 from by decide]; omega)
  · exact char_ne_of_toNat_ne (by rw [show ('n').toNat = 110 from by decide]; omega)
  · exact char_ne_of_toNat_ne (by rw [show ('-').toNat = 45 from by decide]; omega)
  · simp only [isJsonWs, Bool.or_eq_false_iff, decide_eq_false_iff_not]
    refine ⟨⟨⟨?_, ?_⟩, ?_⟩, ?_⟩ <;>
      exact char_ne_of_toNat_ne (by
        first
        | rw [show (' ').toNat = 32 from by decide]; omega
        | rw [show ('\t').toNat = 9 from by decide]; omega
        | rw [show ('\n').toNat = 10 from by decide]; omega
        | rw [show ('\r').toNat = 13 from by decide]; omega)
  · exact char_ne_of_toNat_ne (by rw [show (']').toNat = 93 from by decide]; omega)
  · exact char_ne_of_toNat_ne (by rw [show rbrace.toNat = 125 from by decide]; omega)
  · exact char_ne_of_toNat_ne (by rw [show (',').toNat = 44 from by decide]; omega)

/-- `natChars n` is a nonempty digit string whose leading digit is nonzero
when `n` is. -/
theorem natChars_spec : ∀ n : Nat,
    (∀ c ∈ natChars n, isDigitC c = true) ∧
    ∃ c ds, natChars n = c :: ds ∧ isDigitC c = true ∧ (1 ≤ n → c ≠ '0') := by
  intro n
  induction n using Nat.strong_induction_on with
  | _ n ih =>
    by_cases h : n < 10
    · rw [natChars, dif_pos h]
      refine ⟨?_, Char.ofNat (48 + n), [], rfl, (digitChar_spec n h).2, ?_⟩
      · intro c hc
        simp only [List.mem_singleton] at hc
        subst hc
        exact (digitChar_spec n h).2
      · intro h1
        exact digitChar_ne_zero n h1 h
    · rw [natChars, dif_neg h]
      have hdiv : n / 10 < n := Nat.div_lt_self (by omega) (by omega)
      obtain ⟨ihall, c, ds, hcds, hcdig, hc0⟩ := ih (n / 10) hdiv
      have hmod : n % 10 < 10 := Nat.mod_lt _ (by omega)
      constructor
      · intro x hx
        rcases List.mem_append.mp hx with hx1 | hx2
        · exact ihall x hx1
        · simp only [List.mem_singleton] at hx2
          subst hx2
          exact (digitChar_spec _ hmod).2
      · refine ⟨c, ds ++ [Char.ofNat (48 + n % 10)], by rw [hcds]; simp, hcdig, ?_⟩
        intro _
        exact hc0 (by omega)

theorem digitsAccVal_append (xs ys : List Char) :
    ∀ acc : Nat, digitsAccVal acc (xs ++ ys) = digitsAccVal (digitsAccVal acc xs) ys := by
  induction xs with
  | nil => intro acc; rfl
  | cons x xs2 ih =>
    intro acc
    rw [List.cons_append]
    show digitsAccVal (acc * 10 + (x.toNat - 48)) (xs2 ++ ys) =
      digitsAccVal (digitsAccVal (acc * 10 + (x.toNat - 48)) xs2) ys
    exact ih _

/-- The digit scanner consumes exactly a digit run followed by a non-digit
(or nothing), producing the accumulated value. -/
theorem digitsVal_spec : ∀ (ds t : List Char) (acc : Nat),
    (∀ c ∈ ds, isDigitC c = true) →
    (∀ c, t.head? = some c → isDigitC c = false) →
    digitsVal acc (ds ++ t) = (digitsAccVal acc ds, t)
  | [], t, acc, _, ht => by
    cases t with
    | nil => rfl
    | cons c t2 =>
      have hnd := ht c rfl
      rw [List.nil_append]
      show (if isDigitC c then digitsVal (acc * 10 + (c.toNat - 48)) t2
            else (acc, c :: t2)) = (digitsAccVal acc [], c :: t2)
      rw [if_neg (by rw [hnd]; exact Bool.false_ne_true)]
      rfl
  | d :: ds2, t, acc, hds, ht => by
    have hd : isDigitC d = true := hds d (by simp)
    rw [List.cons_append]
    show (if isDigitC d then digitsVal (acc * 10 + (d.toNat - 48)) (ds2 ++ t)
          else (acc, d :: (ds2 ++ t))) = (digitsAccVal acc (d :: ds2), t)
    rw [if_pos hd]
    show digitsVal (acc * 10 + (d.toNat - 48)) (ds2 ++ t) =
      (digitsAccVal (acc * 10 + (d.toNat - 48)) ds2, t)
    exact digitsVal_spec ds2 t _ (fun c hc => hds c (by simp [hc])) ht

/-- Scanning the digits of `natChars n` recovers `n`. -/
theorem digitsAccVal_natChars : ∀ n : Nat, digitsAccVal 0 (natChars n) = n := by
  intro n
  induction n using Nat.strong_induction_on with
  | _ n ih =>
    by_cases h : n < 10
    · rw [natChars, dif_pos h]
      show 0 * 10 + ((Char.ofNat (48 + n)).toNat - 48) = n
      rw [(digitChar_spec n h).1]
      omega
    · rw [natChars, dif_neg h]
      rw [digitsAccVal_append, ih (n / 10) (Nat.div_lt_self (by omega) (by omega))]
      show n / 10 * 10 + ((Char.ofNat (48 + n % 10)).toNat - 48) = n
      rw [(digitChar_spec (n % 10) (Nat.mod_lt _ (by omega))).1]
      omega

/-- A clean character survives the string-body scanner unchanged. -/
theorem cleanChar_spec {c : Char} (h : cleanChar c = true) :
    c ≠ quoteC ∧ c ≠ backslashC ∧ ¬ c.toNat < 32 := by
  have := h
  simp only [cleanChar, Bool.and_eq_true, decide_eq_true_eq] at this
  exact ⟨this.1.2, this.2, by omega⟩

/-- The string-body scanner consumes a clean body up to the closing quote,
leaving the remainder untouched. -/
theorem parseStrAux_clean (cs : List Char) :
    ∀ (acc t : List Char), (∀ c ∈ cs, cleanChar c = true) →
    parseStrAux acc (cs ++ quoteC :: t) = some (acc.reverse ++ cs, t) := by
  induction cs with
  | nil =>
    intro acc t _
    rw [List.nil_append, parseStrAux.eq_def]
    simp
  | cons c cs2 ih =>
    intro acc t hc
    obtain ⟨hq, hb, hge⟩ := cleanChar_spec (hc c (by simp))
    rw [List.cons_append, parseStrAux.eq_def]
    simp only [hq, hb, hge, if_false, if_neg hq, if_neg hb]
    rw [ih (c :: acc) t (fun x hx => hc x (by simp [hx]))]
    simp

/-! ### Claim C3: one-step reductions of the value scanner -/

theorem parseVal_null (f : Nat) (t : List Char) :
    parseVal (f + 1) ('n' :: 'u' :: 'l' :: 'l' :: t) = some (.null, t) := rfl

theorem parseVal_true (f : Nat) (t : List Char) :
    parseVal (f + 1) ('t' :: 'r' :: 'u' :: 'e' :: t) = some (.bool true, t) := rfl

theorem parseVal_false (f : Nat) (t : List Char) :
    parseVal (f + 1) ('f' :: 'a' :: 'l' :: 's' :: 'e' :: t) = some (.bool false, t) := rfl

theorem parseVal_quote (f : Nat) (r : List Char) :
    parseVal (f + 1) (quoteC :: r) =
      (match parseStrAux [] r with
       | some (sc, r2) => some (.str (String.mk sc), r2)
       | none => none) := rfl

theorem parseVal_lbrace (f : Nat) (r : List Char) :
    parseVal (f + 1) (lbrace :: r) =
      (match skipWs r with
       | [] => none
       | d :: r3 => if d = rbrace then some (.obj [], r3) else parseMembers f (d :: r3)) := rfl

theorem parseVal_lbracket (f : Nat) (r : List Char) :
    parseVal (f + 1) ('[' :: r) =
      (match skipWs r with
       | [] => none
       | d :: r3 => if d = ']' then some (.arr [], r3) else parseItems f (d :: r3)) := rfl

theorem parseVal_zero (f : Nat) (t : List Char) :
    parseVal (f + 1) ('0' :: t) = some (.num 0, t) := rfl

theorem parseVal_minus (f : Nat) (r : List Char) :
    parseVal (f + 1) ('-' :: r) =
      (match r with
       | [] => none
       | d :: r2 =>
         if d = '0' then some (.num 0, r2)
         else if isDigitC d then
           let p := digitsVal (d.toNat - 48) r2
           some (.num (-(p.1 : Int)), p.2)
         else none) := rfl

/-- The value scanner at a nonzero digit: scan the digit run. -/
theorem parseVal_digit (f : Nat) (c : Char) (r : List Char)
    (hd : isDigitC c = true) (h0 : c ≠ '0') :
    parseVal (f + 1) (c :: r) =
      (let p := digitsVal (c.toNat - 48) r
       some (.num (p.1 : Int), p.2)) := by
  obtain ⟨f1, f2, f3, f4, f5, f6, f7, _, _, _, _⟩ := digit_head_facts hd
  simp only [parseVal, if_neg f1, if_neg f2, if_neg f3, if_neg f4, if_neg f5,
    if_neg f6, if_neg f7, if_neg h0, hd, if_true]

/-- `skipWs` leaves a non-whitespace head alone. -/
theorem skipWs_cons (c : Char) (t : List Char) (h : isJsonWs c = false) :
    skipWs (c :: t) = c :: t := by
  simp [skipWs, h]

/-- Every rendered value starts with a non-whitespace character that is not
`]` (so array item dispatch and whitespace skipping are inert on it). -/
theorem render_head (v : Json) :
    ∃ c r, render v = c :: r ∧ isJsonWs c = false ∧ c ≠ ']' := by
  cases v with
  | null => exact ⟨'n', _, by rw [render], by decide, by decide⟩
  | bool b =>
    cases b with
    | true => exact ⟨'t', ['r', 'u', 'e'], by rw [render]; rfl, by decide, by decide⟩
    | false => exact ⟨'f', ['a', 'l', 's', 'e'], by rw [render]; rfl, by decide, by decide⟩
  | num i =>
    by_cases hi : i < 0
    · exact ⟨'-', _, by rw [render, if_pos hi], by decide, by decide⟩
    · obtain ⟨_, c, ds, hcds, hcdig, _⟩ := natChars_spec i.toNat
      obtain ⟨_, _, _, _, _, _, _, hws, hbr, _, _⟩ := digit_head_facts hcdig
      exact ⟨c, ds, by rw [render, if_neg hi, hcds], hws, hbr⟩
  | str s =>
    exact ⟨quoteC, s.data ++ [quoteC], by rw [render, renderStr]; rfl, by decide, by decide⟩
  | arr l =>
    exact ⟨'[', renderItems l ++ [']'], by rw [render]; rfl, by decide, by decide⟩
  | obj l =>
    exact ⟨lbrace, renderMembers l ++ [rbrace], by rw [render]; rfl, by decide, by decide⟩

/-! ### Claim C3: the round trip -/

theorem parseItems_step (f : Nat) (cs : List Char) :
    parseItems (f + 1) cs =
      (match parseVal f cs with
       | none => none
       | some (v, r2) =>
         match skipWs r2 with
         | [] => none
         | d :: r3 =>
           if d = ',' then
             match parseItems f (skipWs r3) with
             | some (Json.arr vs, r4) => some (.arr (v :: vs), r4)
             | _ => none
           else if d = ']' then some (.arr [v], r3)
           else none) := rfl

theorem parseMembers_quote (f : Nat) (rest : List Char) :
    parseMembers (f + 1) (quoteC :: rest) =
      (match parseStrAux [] rest with
       | none => none
       | some (kc, r2) =>
         match skipWs r2 with
         | ':' :: r3 =>
           (match parseVal f (skipWs r3) with
            | none => none
            | some (v, r4) =>
              match skipWs r4 with
              | [] => none
              | d :: r5 =>
                if d = ',' then
                  match parseMembers f (skipWs r5) with
                  | some (Json.obj ms, r6) => some (.obj ((String.mk kc, v) :: ms), r6)
                  | _ => none
                else if d = rbrace then some (.obj [(String.mk kc, v)], r5)
                else none)
         | _ => none) := rfl

/-- The member scanner at a clean quoted key: scan the key, the colon, then
the value. -/
theorem parseMembers_key (f : Nat) (kc X : List Char)
    (hk : ∀ x ∈ kc, cleanChar x = true) :
    parseMembers (f + 1) (quoteC :: (kc ++ quoteC :: (':' :: X))) =
      (match parseVal f (skipWs X) with
       | none => none
       | some (v, r4) =>
         match skipWs r4 with
         | [] => none
         | d :: r5 =>
           if d = ',' then
             match parseMembers f (skipWs r5) with
             | some (Json.obj ms, r6) => some (.obj ((String.mk kc, v) :: ms), r6)
             | _ => none
           else if d = rbrace then some (.obj [(String.mk kc, v)], r5)
           else none) := by
  rw [parseMembers_quote, parseStrAux_clean kc [] _ hk]
  rfl

/-- A nonempty rendered item list starts like its first rendered item. -/
theorem renderItems_head (w : Json) (l : List Json) :
    ∃ c r, renderItems (w :: l) = c :: r ∧ isJsonWs c = false ∧ c ≠ ']' := by
  obtain ⟨c, r, hren, hws, hbr⟩ := render_head w
  cases l with
  | nil => exact ⟨c, r, by rw [renderItems, hren], hws, hbr⟩
  | cons x l2 =>
    exact ⟨c, r ++ ',' :: renderItems (x :: l2), by rw [renderItems, hren]; rfl, hws, hbr⟩

/-- A nonempty rendered member list starts with the key's opening quote. -/
theorem renderMembers_head (k : String) (v : Json) (l : List (String × Json)) :
    ∃ r, renderMembers ((k, v) :: l) = quoteC :: r := by
  cases l with
  | nil =>
    exact ⟨k.data ++ [quoteC] ++ ':' :: render v, by rw [renderMembers, renderStr]; simp⟩
  | cons m l2 =>
    exact ⟨k.data ++ [quoteC] ++ ':' :: render v ++ ',' :: renderMembers (m :: l2),
      by rw [renderMembers, renderStr]; simp⟩

mutual
/-- Parsing a rendered clean value (followed by anything that cannot extend a
number literal) recovers exactly the value and leaves the trailer alone. -/
theorem rt_val : ∀ (v : Json) (fuel : Nat) (t : List Char),
    cleanJson v = true → (render v).length < fuel →
    (∀ c, t.head? = some c → isDigitC c = false) →
    parseVal fuel (render v ++ t) = some (v, t)
  | .null, fuel, t, _, hf, _ => by
    cases fuel with
    | zero => exact absurd hf (Nat.not_lt_zero _)
    | succ f => rw [render]; exact parseVal_null f t
  | .bool true, fuel, t, _, hf, _ => by
    cases fuel with
    | zero => exact absurd hf (Nat.not_lt_zero _)
    | succ f => rw [render]; exact parseVal_true f t
  | .bool false, fuel, t, _, hf, _ => by
    cases fuel with
    | zero => exact absurd hf (Nat.not_lt_zero _)
    | succ f => rw [render]; exact parseVal_false f t
  | .num i, fuel, t, _, hf, ht => by
    by_cases hi : i < 0
    · rw [render, if_pos hi] at hf ⊢
      cases fuel with
      | zero => exact absurd hf (Nat.not_lt_zero _)
      | succ f =>
        obtain ⟨hall, c, ds, hcds, hcdig, hc0⟩ := natChars_spec i.natAbs
        have hm1 : 1 ≤ i.natAbs := by omega
        rw [List.cons_append, parseVal_minus, hcds, List.cons_append]
        dsimp only
        rw [if_neg (hc0 hm1), if_pos hcdig,
          digitsVal_spec ds t _ (fun x hx => hall x (by rw [hcds]; exact List.mem_cons_of_mem c hx)) ht]
        have hval : digitsAccVal (c.toNat - 48) ds = i.natAbs := by
          have h2 := digitsAccVal_natChars i.natAbs
          rw [hcds,
            show digitsAccVal 0 (c :: ds) = digitsAccVal (0 * 10 + (c.toNat - 48)) ds from rfl,
            show (0 : Nat) * 10 + (c.toNat - 48) = c.toNat - 48 from by omega] at h2
          exact h2
        simp only [hval]
        have hio : (-(i.natAbs : Int)) = i := by omega
        rw [hio]
    · rw [render, if_neg hi] at hf ⊢
      by_cases hzero : i.toNat = 0
      · have hch : natChars i.toNat = ['0'] := by
          rw [hzero, natChars, dif_pos (by omega : (0 : Nat) < 10)]
        have hieq : i = 0 := by omega
        cases fuel with
        | zero => exact absurd hf (Nat.not_lt_zero _)
        | succ f =>
          rw [hch, hieq, List.cons_append, List.nil_append]
          exact parseVal_zero f t
      · obtain ⟨hall, c, ds, hcds, hcdig, hc0⟩ := natChars_spec i.toNat
        cases fuel with
        | zero => exact absurd hf (Nat.not_lt_zero _)
        | succ f =>
          rw [hcds, List.cons_append,
            parseVal_digit f c _ hcdig (hc0 (by omega)),
            digitsVal_spec ds t _ (fun x hx => hall x (by rw [hcds]; exact List.mem_cons_of_mem c hx)) ht]
          have hval : digitsAccVal (c.toNat - 48) ds = i.toNat := by
            have h2 := digitsAccVal_natChars i.toNat
            rw [hcds,
              show digitsAccVal 0 (c :: ds) = digitsAccVal (0 * 10 + (c.toNat - 48)) ds from rfl,
              show (0 : Nat) * 10 + (c.toNat - 48) = c.toNat - 48 from by omega] at h2
            exact h2
          simp only [hval]
          have hio : ((i.toNat : Nat) : Int) = i := by omega
          rw [hio]
  | .str s, fuel, t, hc, hf, _ => by
    cases fuel with
    | zero => exact absurd hf (Nat.not_lt_zero _)
    | succ f =>
      have hcs : ∀ x ∈ s.data, cleanChar x = true := by
        rw [cleanJson, cleanStr] at hc
        simpa [List.all_eq_true] using hc
      have harg : render (.str s) ++ t = quoteC :: (s.data ++ quoteC :: t) := by
        rw [render, renderStr]; simp
      rw [harg, parseVal_quote, parseStrAux_clean s.data [] t hcs]
      rfl
  | .arr [], fuel, t, _, hf, _ => by
    cases fuel with
    | zero => exact absurd hf (Nat.not_lt_zero _)
    | succ f =>
      have harg : render (.arr []) ++ t = '[' :: (']' :: t) := by
        rw [render, renderItems]; rfl
      rw [harg, parseVal_lbracket, skipWs_cons ']' t (by decide)]
      simp
  | .arr (w :: l), fuel, t, hc, hf, _ => by
    cases fuel with
    | zero => exact absurd hf (Nat.not_lt_zero _)
    | succ f =>
      rw [render] at hf
      simp only [List.length_cons, List.length_append, List.length_singleton] at hf
      have hfi : (renderItems (w :: l)).length + 1 < f + 1 := by omega
      have hci : cleanItems (w :: l) = true := by rwa [cleanJson] at hc
      have harg : render (.arr (w :: l)) ++ t = '[' :: (renderItems (w :: l) ++ ']' :: t) := by
        rw [render]; simp
      obtain ⟨c, r, hhead, hws, hbr⟩ := renderItems_head w l
      rw [harg, parseVal_lbracket, hhead, List.cons_append, skipWs_cons c _ hws]
      dsimp only
      rw [if_neg hbr, ← List.cons_append, ← hhead]
      exact rt_items w l f t hci (by omega)
  | .obj [], fuel, t, _, hf, _ => by
    cases fuel with
    | zero => exact absurd hf (Nat.not_lt_zero _)
    | succ f =>
      have harg : render (.obj []) ++ t = lbrace :: (rbrace :: t) := by
        rw [render, renderMembers]; rfl
      rw [harg, parseVal_lbrace, skipWs_cons rbrace t (by decide)]
      simp
  | .obj ((k, v) :: l), fuel, t, hc, hf, _ => by
    cases fuel with
    | zero => exact absurd hf (Nat.not_lt_zero _)
    | succ f =>
      rw [render] at hf
      simp only [List.length_cons, List.length_append, List.length_singleton] at hf
      have hcm : cleanMems ((k, v) :: l) = true := by rwa [cleanJson] at hc
      have harg : render (.obj ((k, v) :: l)) ++ t =
          lbrace :: (renderMembers ((k, v) :: l) ++ rbrace :: t) := by
        rw [render]; simp
      obtain ⟨r, hhead⟩ := renderMembers_head k v l
      rw [harg, parseVal_lbrace, hhead, List.cons_append, skipWs_cons quoteC _ (by decide)]
      dsimp only
      rw [if_neg (by decide : ¬ quoteC = rbrace), ← List.cons_append, ← hhead]
      exact rt_mems (k, v) l f t hcm (by omega)
termination_by v => sizeOf v
decreasing_by all_goals (simp_wf; try omega)

/-- Parsing a rendered clean nonempty item list up to the closing bracket
recovers the items in order. -/
theorem rt_items : ∀ (w : Json) (l : List Json) (fuel : Nat) (t : List Char),
    cleanItems (w :: l) = true → (renderItems (w :: l)).length + 1 < fuel →
    parseItems fuel (renderItems (w :: l) ++ ']' :: t) = some (.arr (w :: l), t)
  | w, [], fuel, t, hc, hf => by
    cases fuel with
    | zero => omega
    | succ f =>
      have hcw : cleanJson w = true := by
        rw [cleanItems, Bool.and_eq_true] at hc
        exact hc.1
      have hone : renderItems [w] = render w := by rw [renderItems]
      rw [hone] at hf ⊢
      rw [parseItems_step,
        rt_val w f (']' :: t) hcw (by omega) (fun c hcc => by
          simp only [List.head?_cons, Option.some.injEq] at hcc
          subst hcc
          decide)]
      dsimp only
      rw [skipWs_cons ']' t (by decide)]
      simp
  | w, x :: l2, fuel, t, hc, hf => by
    cases fuel with
    | zero => omega
    | succ f =>
      have hcw : cleanJson w = true := by
        rw [cleanItems, Bool.and_eq_true] at hc
        exact hc.1
      have hcx : cleanItems (x :: l2) = true := by
        rw [cleanItems, Bool.and_eq_true] at hc
        exact hc.2
      have hcons : renderItems (w :: x :: l2) = render w ++ ',' :: renderItems (x :: l2) := by
        rw [renderItems]
      rw [hcons] at hf ⊢
      simp only [List.length_append, List.length_cons] at hf
      rw [List.append_assoc, List.cons_append, parseItems_step,
        rt_val w f (',' :: (renderItems (x :: l2) ++ ']' :: t)) hcw (by omega)
          (fun c hcc => by
            simp only [List.head?_cons, Option.some.injEq] at hcc
            subst hcc
            decide)]
      dsimp only
      rw [skipWs_cons ',' _ (by decide)]
      dsimp only
      rw [if_pos rfl]
      obtain ⟨c, r, hhead, hws, _⟩ := renderItems_head x l2
      rw [hhead, List.cons_append, skipWs_cons c _ hws, ← List.cons_append, ← hhead,
        rt_items x l2 f t hcx (by omega)]
termination_by w l => sizeOf w + sizeOf l
decreasing_by all_goals (simp_wf; try omega)

/-- Parsing a rendered clean nonempty member list up to the closing brace
recovers the members in order. -/
theorem rt_mems : ∀ (kv : String × Json) (l : List (String × Json)) (fuel : Nat) (t : List Char),
    cleanMems (kv :: l) = true → (renderMembers (kv :: l)).length + 1 < fuel →
    parseMembers fuel (renderMembers (kv :: l) ++ rbrace :: t) = some (.obj (kv :: l), t)
  | (k, v), [], fuel, t, hc, hf => by
    cases fuel with
    | zero => omega
    | succ f =>
      have hck : ∀ x ∈ k.data, cleanChar x = true := by
        rw [cleanMems, cleanStr, Bool.and_eq_true, Bool.and_eq_true] at hc
        simpa [List.all_eq_true] using hc.1.1
      have hcv : cleanJson v = true := by
        rw [cleanMems, Bool.and_eq_true, Bool.and_eq_true] at hc
        exact hc.1.2
      have hone : renderMembers [(k, v)] = renderStr k ++ ':' :: render v := by
        rw [renderMembers]
      rw [hone] at hf ⊢
      simp only [renderStr, List.length_append, List.length_cons] at hf
      have harg : (renderStr k ++ ':' :: render v) ++ rbrace :: t =
          quoteC :: (k.data ++ quoteC :: (':' :: (render v ++ rbrace :: t))) := by
        rw [renderStr]; simp
      rw [harg, parseMembers_key f k.data _ hck]
      obtain ⟨c, r, hhead, hws, _⟩ := render_head v
      rw [hhead, List.cons_append, skipWs_cons c _ hws, ← List.cons_append, ← hhead,
        rt_val v f (rbrace :: t) hcv (by omega) (fun c hcc => by
          simp only [List.head?_cons, Option.some.injEq] at hcc
          subst hcc
          decide)]
      dsimp only
      rw [skipWs_cons rbrace t (by decide)]
      dsimp only
      rw [if_neg (by decide : ¬ rbrace = ','), if_pos rfl]
  | (k, v), m :: l2, fuel, t, hc, hf => by
    cases fuel with
    | zero => omega
    | succ f =>
      have hck : ∀ x ∈ k.data, cleanChar x = true := by
        rw [cleanMems, cleanStr, Bool.and_eq_true, Bool.and_eq_true] at hc
        simpa [List.all_eq_true] using hc.1.1
      have hcv : cleanJson v = true := by
        rw [cleanMems, Bool.and_eq_true, Bool.and_eq_true] at hc
        exact hc.1.2
      have hcl : cleanMems (m :: l2) = true := by
        rw [cleanMems, Bool.and_eq_true, Bool.and_eq_true] at hc
        exact hc.2
      have hcons : renderMembers ((k, v) :: m :: l2) =
          renderStr k ++ ':' :: render v ++ ',' :: renderMembers (m :: l2) := by
        rw [renderMembers]
      rw [hcons] at hf ⊢
      simp only [renderStr, List.length_append, List.length_cons] at hf
      have harg : (renderStr k ++ ':' :: render v ++ ',' :: renderMembers (m :: l2)) ++ rbrace :: t =
          quoteC :: (k.data ++ quoteC ::
            (':' :: (render v ++ ',' :: (renderMembers (m :: l2) ++ rbrace :: t)))) := by
        rw [renderStr]; simp
      rw [harg, parseMembers_key f k.data _ hck]
      obtain ⟨c, r, hhead, hws, _⟩ := render_head v
      rw [hhead, List.cons_append, skipWs_cons c _ hws, ← List.cons_append, ← hhead,
        rt_val v f (',' :: (renderMembers (m :: l2) ++ rbrace :: t)) hcv
          (by omega) (fun c hcc => by
            simp only [List.head?_cons, Option.some.injEq] at hcc
            subst hcc
            decide)]
      dsimp only
      rw [skipWs_cons ',' _ (by decide)]
      dsimp only
      rw [if_pos rfl]
      obtain ⟨r2, hhead2⟩ := renderMembers_head m.1 m.2 l2
      have hm : m = (m.1, m.2) := rfl
      rw [← hm] at hhead2
      rw [hhead2, List.cons_append, skipWs_cons quoteC _ (by decide), ← List.cons_append, ← hhead2,
        rt_mems m l2 f t hcl (by omega)]
termination_by kv l => sizeOf kv + sizeOf l
decreasing_by all_goals (simp_wf; try omega)
end

/-- Top-level round trip for a rendered object followed by ARBITRARY trailing
text: an object is closed by its brace, so no trailer can extend it. -/
theorem rt_obj (l : List (String × Json)) (fuel : Nat) (t : List Char)
    (hc : cleanJson (.obj l) = true) (hf : (render (.obj l)).length < fuel) :
    parseVal fuel (render (.obj l) ++ t) = some (.obj l, t) := by
  cases l with
  | nil =>
    cases fuel with
    | zero => exact absurd hf (Nat.not_lt_zero _)
    | succ f =>
      have harg : render (.obj []) ++ t = lbrace :: (rbrace :: t) := by
        rw [render, renderMembers]; rfl
      rw [harg, parseVal_lbrace, skipWs_cons rbrace t (by decide)]
      simp
  | cons kv l2 =>
    obtain ⟨k, v⟩ := kv
    cases fuel with
    | zero => exact absurd hf (Nat.not_lt_zero _)
    | succ f =>
      rw [render] at hf
      simp only [List.length_cons, List.length_append, List.length_singleton] at hf
      have hcm : cleanMems ((k, v) :: l2) = true := by rwa [cleanJson] at hc
      have harg : render (.obj ((k, v) :: l2)) ++ t =
          lbrace :: (renderMembers ((k, v) :: l2) ++ rbrace :: t) := by
        rw [render]; simp
      obtain ⟨r, hhead⟩ := renderMembers_head k v l2
      rw [harg, parseVal_lbrace, hhead, List.cons_append, skipWs_cons quoteC _ (by decide)]
      dsimp only
      rw [if_neg (by decide : ¬ quoteC = rbrace), ← List.cons_append, ← hhead]
      exact rt_mems (k, v) l2 f t hcm (by omega)

/-- Dropping strip-whitespace skips over an all-whitespace block. -/
theorem dropWhile_all_append (w x : List Char) (hw : ∀ c ∈ w, isStripWs c = true) :
    (w ++ x).dropWhile isStripWs = x.dropWhile isStripWs := by
  induction w with
  | nil => rfl
  | cons c w2 ih =>
    rw [List.cons_append, List.dropWhile_cons, if_pos (hw c (by simp))]
    exact ih (fun x hx => hw x (by simp [hx]))

/-- `str.strip()` on whitespace, then a block with non-whitespace first and
last characters, then arbitrary text: the block survives as a prefix. -/
theorem pyStrip_wrapped (w rmid t : List Char)
    (hw : ∀ c ∈ w, isStripWs c = true)
    (c0 : Char) (r0 : List Char) (hc0 : rmid = c0 :: r0) (h0 : isStripWs c0 = false)
    (cN : Char) (rN : List Char) (hcN : rmid.reverse = cN :: rN) (hN : isStripWs cN = false) :
    ∃ t2, pyStrip (w ++ rmid ++ t) = rmid ++ t2 := by
  have step1 : (w ++ rmid ++ t).dropWhile isStripWs = rmid ++ t := by
    rw [List.append_assoc, dropWhile_all_append _ _ hw, hc0, List.cons_append,
      List.dropWhile_cons, if_neg (by rw [h0]; exact Bool.false_ne_true)]
  rw [pyStrip, step1, List.reverse_append]
  rw [List.dropWhile_append]
  by_cases he : (t.reverse.dropWhile isStripWs).isEmpty
  · refine ⟨[], ?_⟩
    rw [if_pos he, hcN, List.dropWhile_cons,
      if_neg (by rw [hN]; exact Bool.false_ne_true), ← hcN]
    simp
  · refine ⟨(t.reverse.dropWhile isStripWs).reverse, ?_⟩
    rw [if_neg he]
    simp

/-! ### Claim C3 -/

/-- Claim C3: a raw model output consisting of a single serialized JSON
object (clean strings), optionally surrounded by whitespace on the left and
ARBITRARY extraneous text on the right, is parsed to exactly that object, the
surrounding text ignored; and `parse_first_json_object` fails exactly when no
JSON value can be decoded at the first non-whitespace character (that is,
exactly when the first-value decoder `jsonDecode` fails on the stripped
text — malformed syntax, truncated object, or leading prose). -/
theorem C3_parser_first_value (fields : List (String × Json)) (w t : List Char)
    (hclean : cleanJson (.obj fields) = true)
    (hw : ∀ c ∈ w, isStripWs c = true) :
    parse_first_json_object (String.mk (w ++ render (.obj fields) ++ t)) = some (.obj fields)
    ∧ ∀ s : String, (parse_first_json_object s = none ↔ jsonDecode (pyStrip s.data) = none) := by
  constructor
  · obtain ⟨c0, r0, hc0, hws0, _⟩ := render_head (.obj fields)
    have h0 : isStripWs c0 = false := by
      have hc0c := hc0
      rw [render] at hc0c
      injection hc0c with h1 _
      rw [← h1]; decide
    have hrev : ∃ rN, (render (.obj fields)).reverse = rbrace :: rN := by
      rw [render]
      refine ⟨(renderMembers fields).reverse ++ [lbrace], ?_⟩
      simp
    obtain ⟨rN, hcN⟩ := hrev
    obtain ⟨t2, hstrip⟩ := pyStrip_wrapped w (render (.obj fields)) t hw c0 r0 hc0 h0
      rbrace rN hcN (by decide)
    show (match jsonDecode (pyStrip (String.mk (w ++ render (.obj fields) ++ t)).data) with
      | some (v, _) => some v
      | none => none) = some (.obj fields)
    have hdata : (String.mk (w ++ render (.obj fields) ++ t)).data
        = w ++ render (.obj fields) ++ t := rfl
    rw [hdata, hstrip, jsonDecode,
      rt_obj fields ((render (.obj fields) ++ t2).length + 1) t2 hclean
        (by simp only [List.length_append]; omega)]
  · intro s
    show (match jsonDecode (pyStrip s.data) with
      | some (v, _) => some v
      | none => none) = none ↔ jsonDecode (pyStrip s.data) = none
    rcases h : jsonDecode (pyStrip s.data) with _ | ⟨v, r⟩ <;> simp

/-- Witness for C3: one leading space, the object, trailing prose. -/
theorem C3_witness :
    parse_first_json_object
        (String.mk ([' '] ++ render (.obj [("mode", Json.str "chat")]) ++
          (" and some trailing prose").data))
      = some (.obj [("mode", Json.str "chat")]) :=
  (C3_parser_first_value [("mode", Json.str "chat")] [' ']
    (" and some trailing prose").data
    (by rw [cleanJson, cleanMems, cleanJson, cleanMems]; decide)
    (by decide)).1

/-! ### Counter lemmas -/

/-- `decide_with_repair` makes exactly one primary model call. -/
theorem dwr_nDecide (env : Env) (msgs : List Message) (nD nR : Nat) :
    (decide_with_repair env msgs nD nR).2.1 = nD + 1 := by
  unfold decide_with_repair
  repeat' split
  all_goals rfl

/-- The post-parse dispatch never makes a primary model call. -/
theorem afterParse_nDecide (env : Env) (st1 : RunState) (step : Nat) (ms : Int)
    (decision : Json) (raw : String) :
    ((afterParse env st1 step ms decision raw).2).nDecide = st1.nDecide := by
  unfold afterParse
  dsimp only
  repeat' split
  all_goals rfl

/-- The post-parse dispatch never makes a repair call. -/
theorem afterParse_nRepair (env : Env) (st1 : RunState) (step : Nat) (ms : Int)
    (decision : Json) (raw : String) :
    ((afterParse env st1 step ms decision raw).2).nRepair = st1.nRepair := by
  unfold afterParse
  dsimp only
  repeat' split
  all_goals rfl

/-- Each loop iteration makes exactly one primary model call (a decision
step). -/
theorem stepBody_nDecide (env : Env) (st : RunState) (step : Nat) (ms : Int) :
    ((stepBody env st step ms).2).nDecide = st.nDecide + 1 := by
  have hd := dwr_nDecide env st.messages st.nDecide st.nRepair
  unfold stepBody
  rcases h : decide_with_repair env st.messages st.nDecide st.nRepair with ⟨r, nD, nR⟩
  rw [h] at hd
  simp only at hd
  cases r with
  | error e => simpa using hd
  | ok p =>
    rcases p with ⟨decision, raw⟩
    rw [afterParse_nDecide]
    simpa using hd

/-- Over `rem` remaining iterations the loop makes at most `rem` primary
model calls. -/
theorem runAux_nDecide_le (env : Env) (ms : Int) :
    ∀ (rem step : Nat) (st : RunState),
      ((runAux env ms rem step st).2).nDecide ≤ st.nDecide + rem
  | 0, _, st => by simp [runAux]
  | rem + 1, step, st => by
    have hb := stepBody_nDecide env st step ms
    rw [runAux]
    rcases h : stepBody env st step ms with ⟨r, st2⟩
    rw [h] at hb; simp only at hb
    cases r with
    | retS s => simp only; omega
    | err e => simp only; omega
    | cont =>
      simp only
      have := runAux_nDecide_le env ms rem (step + 1) st2
      omega

/-- If every iteration falls through, the loop runs out of iterations and
produces the fixed stopped message. -/
theorem runAux_all_cont (env : Env) (ms : Int)
    (hc : ∀ st step, (stepBody env st step ms).1 = StepRes.cont) :
    ∀ (rem step : Nat) (st : RunState),
      (runAux env ms rem step st).1 = "(stopped: max steps reached)"
  | 0, _, _ => by simp [runAux]
  | rem + 1, step, st => by
    have h1 := hc st step
    rw [runAux]
    rcases h : stepBody env st step ms with ⟨r, st2⟩
    rw [h] at h1; simp only at h1
    subst h1
    simp only
    exact runAux_all_cont env ms hc rem (step + 1) st2

/-- A flagged stalling message is non-empty (the Python `and` short-circuits
on an empty string before the regex runs). -/
theorem stall_ne_empty {m : String} (h : looks_like_deferred_action_chat m = true) :
    m ≠ "" := by
  simp only [looks_like_deferred_action_chat, Bool.and_eq_true, ne_eq,
    decide_eq_true_eq] at h
  exact h.1

/-! ### Claim C1 -/

/-- Claim C1: once the per-step loop is entered, an exception raised anywhere
inside the loop body — the `.err` outcomes of `stepBody` are exactly the raise
sites: model call failure, parse/repair exhaustion, the non-dict decision
`AttributeError`, invalid mode, missing tool name, bad args shape, oversized
batch, and tool invocation failure — is caught at the loop boundary, and the
loop returns the diagnostic string made of the exception kind, its message and
the truncated trace.  By its type, `runAux` (hence `run`) always returns a
string, never a propagated exception. -/
theorem C1_loop_boundary_catches (env : Env) (maxSteps : Int) (rem step : Nat)
    (st st2 : RunState) (e : PyErr)
    (h : stepBody env st step maxSteps = (.err e, st2)) :
    runAux env maxSteps (rem + 1) step st =
      ("Tool loop error.\n" ++ e.kind ++ ": " ++ e.msg ++ "\n" ++ env.traceFn e, st2) := by
  rw [runAux, h]

/-- Witness for C1: a failing model call on step 0 of an 8-step run yields the
diagnostic result. -/
theorem C1_witness :
    runAux envRaise 8 8 0 (initState "hello") =
      ("Tool loop error.\n" ++ "ConnectionError" ++ ": " ++ "connection refused" ++ "\n"
        ++ envRaise.traceFn ⟨"ConnectionError", "connection refused"⟩,
       ⟨[⟨"user", "hello"⟩], 1, 0, 0⟩) :=
  C1_loop_boundary_catches envRaise 8 7 0 (initState "hello")
    ⟨[⟨"user", "hello"⟩], 1, 0, 0⟩ ⟨"ConnectionError", "connection refused"⟩ rfl

/-! ### Claim C2 -/

/-- Claim C2: a run performs at most `max_steps` decision steps (primary
model calls), and when every iteration falls through — no `Returning` and no
`Failed` transition — the loop terminates with exactly the fixed string
`"(stopped: max steps reached)"`. -/
theorem C2_step_budget (env : Env) (prompt : String) (maxSteps : Int) :
    (runFull env prompt maxSteps).2.nDecide ≤ maxSteps.toNat ∧
    ((∀ st step, (stepBody env st step maxSteps).1 = StepRes.cont) →
      run env prompt maxSteps = "(stopped: max steps reached)") := by
  constructor
  · have := runAux_nDecide_le env maxSteps maxSteps.toNat 0 (initState prompt)
    simpa [runFull, initState] using this
  · intro hc
    exact runAux_all_cont env maxSteps hc maxSteps.toNat 0 (initState prompt)

/-- Witness for C2: with `max_steps = 2` and action decisions on both steps,
`run` returns exactly the stopped message (the worked example of the spec). -/
theorem C2_witness :
    run envAllAction "go" 2 = "(stopped: max steps reached)" :=
  (C2_step_budget envAllAction "go" 2).2 (fun _ _ => rfl)

/-! ### Claim C10 -/

/-- Claim C10: a non-positive `max_steps` runs the loop body zero times —
`range(max_steps)` is empty — so no model call and no tool call happens and
`run` returns the stopped message (the final state is the initial one, with
all call counters zero). -/
theorem C10_nonpositive_steps (env : Env) (prompt : String) (maxSteps : Int)
    (h : maxSteps ≤ 0) :
    runFull env prompt maxSteps = ("(stopped: max steps reached)", initState prompt) := by
  have h0 : maxSteps.toNat = 0 := Int.toNat_of_nonpos h
  rw [runFull, h0, runAux]

/-- Witness for C10 at `max_steps = 0`. -/
theorem C10_witness :
    runFull envRaise "hello" 0 = ("(stopped: max steps reached)", initState "hello") :=
  C10_nonpositive_steps envRaise "hello" 0 (by decide)

/-! ### Claim C4 -/

/-- Claim C4: when the primary output parses, no repair call is made and the
decision is returned with the primary text; when the primary parse fails, the
repair escalation runs exactly once (the repair counter advances by exactly
one); when the repaired text also fails to parse, the step raises the
terminal `RuntimeError` carrying both texts verbatim. -/
theorem C4_repair_policy (env : Env) (msgs : List Message) (nD nR : Nat) :
    (∀ raw v, env.decideFn msgs nD = .ok raw → parse_first_json_object raw = some v →
      decide_with_repair env msgs nD nR = (.ok (v, raw), nD + 1, nR))
    ∧ (∀ raw, env.decideFn msgs nD = .ok raw → parse_first_json_object raw = none →
      (decide_with_repair env msgs nD nR).2.2 = nR + 1)
    ∧ (∀ raw repaired, env.decideFn msgs nD = .ok raw →
      parse_first_json_object raw = none → env.repairFn raw nR = .ok repaired →
      parse_first_json_object repaired = none →
      decide_with_repair env msgs nD nR =
        (.error ⟨"RuntimeError",
          "Ollama returned malformed JSON and repair failed.\nOriginal:\n" ++ raw
            ++ "\n\nRepaired:\n" ++ repaired⟩, nD + 1, nR + 1)) := by
  refine ⟨?_, ?_, ?_⟩
  · intro raw v h1 h2
    simp only [decide_with_repair, h1, h2]
  · intro raw h1 h2
    simp only [decide_with_repair, h1, h2]
    rcases h3 : env.repairFn raw nR with e | repaired
    · simp only [h3]
    · simp only [h3]
      cases h4 : parse_first_json_object repaired <;> simp only [h4]
  · intro raw repaired h1 h2 h3 h4
    simp only [decide_with_repair, h1, h2, h3, h4]

/-! ### Dispatch lemmas -/

/-- When the primary output parses, the step proceeds to the post-parse
dispatch with one more primary call on the clock and the primary text as the
raw decision. -/
theorem stepBody_parsed (env : Env) (st : RunState) (step : Nat) (ms : Int)
    (raw : String) (v : Json)
    (h1 : env.decideFn st.messages st.nDecide = .ok raw)
    (h2 : parse_first_json_object raw = some v) :
    stepBody env st step ms =
      afterParse env { st with nDecide := st.nDecide + 1 } step ms v raw := by
  simp only [stepBody, decide_with_repair, h1, h2]

/-- When the primary output fails to parse but the repaired text parses, the
step proceeds to the post-parse dispatch with the REPAIRED text as the raw
decision and both call counters advanced. -/
theorem stepBody_repaired (env : Env) (st : RunState) (step : Nat) (ms : Int)
    (raw repaired : String) (v : Json)
    (h1 : env.decideFn st.messages st.nDecide = .ok raw)
    (h2 : parse_first_json_object raw = none)
    (h3 : env.repairFn raw st.nRepair = .ok repaired)
    (h4 : parse_first_json_object repaired = some v) :
    stepBody env st step ms =
      afterParse env { st with nDecide := st.nDecide + 1, nRepair := st.nRepair + 1 }
        step ms v repaired := by
  simp only [stepBody, decide_with_repair, h1, h2, h3, h4]

/-- The chat branch, non-empty non-stalling message: return it unchanged. -/
theorem afterParse_chat_plain (env : Env) (st1 : RunState) (step : Nat) (ms : Int)
    (raw : String) (d : List (String × Json)) (m : String)
    (hmode : resolveMode d = .str "chat")
    (hmsg : resolveMessage d = .str m) (hm : m ≠ "")
    (hflag : looks_like_deferred_action_chat m = false) :
    afterParse env st1 step ms (.obj d) raw = (.retS m, st1) := by
  simp [afterParse, hmode, hmsg, isStrEq, truthy, hm, hflag]

/-- The chat branch, falsy resolved message: return the diagnostic
placeholder embedding the raw output. -/
theorem afterParse_chat_empty (env : Env) (st1 : RunState) (step : Nat) (ms : Int)
    (raw : String) (d : List (String × Json))
    (hmode : resolveMode d = .str "chat")
    (hmsg : truthy (resolveMessage d) = false) :
    afterParse env st1 step ms (.obj d) raw =
      (.retS ("(empty chat response)\nRaw model output:\n" ++ raw), st1) := by
  simp [afterParse, hmode, hmsg, isStrEq]

/-- The chat branch, stalling message before the final allotted step: append
the raw decision and the corrective instruction, fall through. -/
theorem afterParse_chat_stall (env : Env) (st1 : RunState) (step : Nat) (ms : Int)
    (raw : String) (d : List (String × Json)) (m : String)
    (hmode : resolveMode d = .str "chat")
    (hmsg : resolveMessage d = .str m)
    (hflag : looks_like_deferred_action_chat m = true)
    (hstep : (step : Int) < ms - 1) :
    afterParse env st1 step ms (.obj d) raw =
      (.cont, { st1 with messages := st1.messages ++ [⟨"assistant", raw⟩, corrective] }) := by
  have hm : m ≠ "" := stall_ne_empty hflag
  simp [afterParse, hmode, hmsg, isStrEq, truthy, hm, hflag, hstep]

/-- The chat branch, stalling message on the final allotted step: the message
is returned like any other chat message. -/
theorem afterParse_chat_stall_final (env : Env) (st1 : RunState) (step : Nat) (ms : Int)
    (raw : String) (d : List (String × Json)) (m : String)
    (hmode : resolveMode d = .str "chat")
    (hmsg : resolveMessage d = .str m)
    (hflag : looks_like_deferred_action_chat m = true)
    (hstep : ¬ (step : Int) < ms - 1) :
    afterParse env st1 step ms (.obj d) raw = (.retS m, st1) := by
  have hm : m ≠ "" := stall_ne_empty hflag
  simp [afterParse, hmode, hmsg, isStrEq, truthy, hm, hflag, hstep]

/-! ### Claim C7 -/

/-- Claim C7: a well-formed chat decision with a non-empty message that the
deferred-action detector does not flag makes `run` return that message
unchanged — the loop ends at this step with the message as the result and the
state shows no tool call was made.  When the resolved message (from `message`,
then legacy `final`) is falsy — in particular empty — the loop instead returns
the diagnostic placeholder embedding the raw model output, never a silently
empty result. -/
theorem C7_chat_terminal (env : Env) (st : RunState) (step : Nat) (ms : Int)
    (raw : String) (d : List (String × Json))
    (h1 : env.decideFn st.messages st.nDecide = .ok raw)
    (h2 : parse_first_json_object raw = some (.obj d))
    (hmode : resolveMode d = .str "chat") :
    (∀ m, resolveMessage d = .str m → m ≠ "" →
      looks_like_deferred_action_chat m = false →
      stepBody env st step ms = (.retS m, { st with nDecide := st.nDecide + 1 })
      ∧ ∀ rem, runAux env ms (rem + 1) step st =
          (m, { st with nDecide := st.nDecide + 1 }))
    ∧ (truthy (resolveMessage d) = false →
      stepBody env st step ms =
        (.retS ("(empty chat response)\nRaw model output:\n" ++ raw),
         { st with nDecide := st.nDecide + 1 })) := by
  constructor
  · intro m hmsg hm hflag
    have hb : stepBody env st step ms = (.retS m, { st with nDecide := st.nDecide + 1 }) := by
      rw [stepBody_parsed env st step ms raw (.obj d) h1 h2,
        afterParse_chat_plain env _ step ms raw d m hmode hmsg hm hflag]
    refine ⟨hb, fun rem => ?_⟩
    rw [runAux, hb]
  · intro hmsg
    rw [stepBody_parsed env st step ms raw (.obj d) h1 h2,
      afterParse_chat_empty env _ step ms raw d hmode hmsg]

/-- Witness for C7: the chat message comes back unchanged, with no tool
call. -/
theorem C7_witness :
    run envChat "capital of France?" 8 = "Paris is the capital of France." :=
  congrArg Prod.fst
    (((C7_chat_terminal envChat (initState "capital of France?") 0 8
        "\x7b\"mode\":\"chat\",\"message\":\"Paris is the capital of France.\"\x7d"
        [("mode", .str "chat"), ("message", .str "Paris is the capital of France.")]
        rfl rfl rfl).1
      "Paris is the capital of France." rfl (by decide) rfl).2 7)

/-! ### Claim C8 -/

/-- Claim C8: a chat message flagged by the stalling detector on step
`k < max_steps - 1` does not end the run at step `k`: the loop appends the raw
decision and the corrective user instruction to the history and proceeds to
step `k + 1`.  On the final allotted step (`k = max_steps - 1`, or any later
position where `k < max_steps - 1` fails) a stalling message is returned like
any other chat message. -/
theorem C8_stalling_deferred (env : Env) (st : RunState) (step : Nat) (ms : Int)
    (raw : String) (d : List (String × Json)) (m : String)
    (h1 : env.decideFn st.messages st.nDecide = .ok raw)
    (h2 : parse_first_json_object raw = some (.obj d))
    (hmode : resolveMode d = .str "chat")
    (hmsg : resolveMessage d = .str m)
    (hflag : looks_like_deferred_action_chat m = true) :
    ((step : Int) < ms - 1 →
      stepBody env st step ms =
        (.cont,
          { st with
            nDecide := st.nDecide + 1,
            messages := st.messages ++ [⟨"assistant", raw⟩, corrective] })
      ∧ ∀ rem, runAux env ms (rem + 1) step st =
          runAux env ms rem (step + 1)
            { st with
              nDecide := st.nDecide + 1,
              messages := st.messages ++ [⟨"assistant", raw⟩, corrective] })
    ∧ (¬ (step : Int) < ms - 1 →
      stepBody env st step ms = (.retS m, { st with nDecide := st.nDecide + 1 })) := by
  constructor
  · intro hstep
    have hb : stepBody env st step ms =
        (.cont,
          { st with
            nDecide := st.nDecide + 1,
            messages := st.messages ++ [⟨"assistant", raw⟩, corrective] }) := by
      rw [stepBody_parsed env st step ms raw (.obj d) h1 h2,
        afterParse_chat_stall env _ step ms raw d m hmode hmsg hflag hstep]
    refine ⟨hb, fun rem => ?_⟩
    rw [runAux, hb]
  · intro hstep
    rw [stepBody_parsed env st step ms raw (.obj d) h1 h2,
      afterParse_chat_stall_final env _ step ms raw d m hmode hmsg hflag hstep]

/-- Witness for C8: on step 0 of a 3-step run the stalling chat does not
terminate the loop; the raw decision and the corrective instruction are
appended and the loop moves to step 1. -/
theorem C8_witness :
    stepBody envStall (initState "list files") 0 3 =
      (.cont,
       ⟨[⟨"user", "list files"⟩,
         ⟨"assistant", "\x7b\"mode\":\"chat\",\"message\":\"Let me check the files.\"\x7d"⟩,
         corrective], 1, 0, 0⟩) :=
  ((C8_stalling_deferred envStall (initState "list files") 0 3
      "\x7b\"mode\":\"chat\",\"message\":\"Let me check the files.\"\x7d"
      [("mode", .str "chat"), ("message", .str "Let me check the files.")]
      "Let me check the files." rfl rfl rfl rfl rfl).1 (by decide)).1

/-! ### Claim C9 -/

/-- Claim C9: when the primary output fails to parse and the single repair
attempt parses, the text the loop thereafter treats as the raw decision is the
REPAIRED text: `decide_with_repair` returns it as the raw component, and (for
instance on the stalling-chat path) the assistant message folded into the
history carries the repaired text, not the original malformed output. -/
theorem C9_repaired_text_wins (env : Env) (msgs : List Message) (nD nR : Nat)
    (raw repaired : String) (v : Json)
    (h1 : env.decideFn msgs nD = .ok raw)
    (h2 : parse_first_json_object raw = none)
    (h3 : env.repairFn raw nR = .ok repaired)
    (h4 : parse_first_json_object repaired = some v) :
    decide_with_repair env msgs nD nR = (.ok (v, repaired), nD + 1, nR + 1)
    ∧ ∀ (st : RunState) (step : Nat) (ms : Int) (d : List (String × Json)) (m : String),
      st.messages = msgs → st.nDecide = nD → st.nRepair = nR →
      v = .obj d → resolveMode d = .str "chat" → resolveMessage d = .str m →
      looks_like_deferred_action_chat m = true → (step : Int) < ms - 1 →
      stepBody env st step ms =
        (.cont,
          { st with
            nDecide := nD + 1,
            nRepair := nR + 1,
            messages := st.messages ++ [⟨"assistant", repaired⟩, corrective] }) := by
  have hd : decide_with_repair env msgs nD nR = (.ok (v, repaired), nD + 1, nR + 1) := by
    simp only [decide_with_repair, h1, h2, h3, h4]
  refine ⟨hd, ?_⟩
  intro st step ms d m hm1 hm2 hm3 hv hmode hmsg hflag hstep
  subst hm1; subst hm2; subst hm3; subst hv
  rw [stepBody_repaired env st step ms raw repaired (.obj d) h1 h2 h3 h4,
    afterParse_chat_stall env _ step ms repaired d m hmode hmsg hflag hstep]

/-- Witness for C9: the assistant message appended to the history is the
repaired text, not the malformed original. -/
theorem C9_witness :
    stepBody envRepairStall (initState "task") 0 3 =
      (.cont,
       ⟨[⟨"user", "task"⟩,
         ⟨"assistant", "\x7b\"mode\":\"chat\",\"message\":\"I will look into it.\"\x7d"⟩,
         corrective], 1, 1, 0⟩) :=
  (C9_repaired_text_wins envRepairStall [⟨"user", "task"⟩] 0 0
      "chat: let me look" "\x7b\"mode\":\"chat\",\"message\":\"I will look into it.\"\x7d"
      (.obj [("mode", .str "chat"), ("message", .str "I will look into it.")])
      rfl rfl rfl rfl).2
    (initState "task") 0 3
    [("mode", .str "chat"), ("message", .str "I will look into it.")]
    "I will look into it." rfl rfl rfl rfl rfl rfl rfl (by decide)

/-! ### Claims C5 and C6 (the action path) -/

/-- If every tool call of the batch answers, the tool loop collects exactly
one text per argument object, in order: the `i`-th invocation (0-based) is
made with the `i`-th argument object and the `i`-th call index. -/
theorem runTools_all_ok (env : Env) (tname : Json) :
    ∀ (l : List Json) (rs : List String) (n : Nat),
      rs.length = l.length →
      (∀ i, i < l.length → env.toolFn tname (l.getD i .null) (n + i) = .ok (rs.getD i "")) →
      runTools env tname n l = (.ok rs, n + l.length)
  | [], rs, n, hlen, _ => by
    have hnil : rs = [] := List.length_eq_zero.mp (by simpa using hlen)
    subst hnil
    simp [runTools]
  | a :: l2, rs, n, hlen, hcalls => by
    cases rs with
    | nil => simp at hlen
    | cons r rs2 =>
      have h0 := hcalls 0 (by simp)
      simp only [List.getD_cons_zero, Nat.add_zero] at h0
      have hrec := runTools_all_ok env tname l2 rs2 (n + 1)
        (by simpa using hlen)
        (fun i hi => by
          have h := hcalls (i + 1) (by simpa using hi)
          simp only [List.getD_cons_succ] at h
          have e : n + (i + 1) = n + 1 + i := by omega
          rwa [e] at h)
      simp only [runTools, h0, hrec]
      have e2 : n + 1 + l2.length = n + (l2.length + 1) := by omega
      simp [e2]

/-- The action branch with a list-shaped `args` of argument objects reduces
to the batch ceiling check followed by the tool loop and the fold-back. -/
theorem afterParse_action_args (env : Env) (st1 : RunState) (step : Nat) (ms : Int)
    (raw : String) (d : List (String × Json)) (tname : Json) (l : List Json)
    (hmode : resolveMode d = .str "action")
    (hname : getAttr d "tool" = tname)
    (htname : truthy tname = true)
    (hargs : pyGet d "args" = some (.arr l))
    (hobjs : l.all isObjJson = true) :
    afterParse env st1 step ms (.obj d) raw =
      (if l.length > 20 then
        (.err ⟨"RuntimeError", "Refusing oversized batched action with "
            ++ toString l.length ++ " calls (max 20)."⟩, st1)
      else
        match runTools env tname st1.nTool l with
        | (.error e, nT) => (.err e, { st1 with nTool := nT })
        | (.ok rs, nT) =>
          (.cont,
            { st1 with
              nTool := nT,
              messages := st1.messages ++
                [⟨"assistant", raw⟩,
                 ⟨"user", "Tool result:\n" ++ labelResults rs⟩] })) := by
  simp [afterParse, hmode, hname, htname, hargs, hobjs, isStrEq]

/-- Claim C5: an action decision whose `args` is a list of `N ≤ 20` argument
objects invokes the tool session adapter exactly `N` times, sequentially, in
list order (call indices `nTool, nTool+1, …`), and folds a single user
message back into the history containing exactly the `N` collected results,
labeled `Result 1`, `Result 2`, … in that same order (`labelResults`). -/
theorem C5_batch_order (env : Env) (st : RunState) (step : Nat) (ms : Int)
    (raw : String) (d : List (String × Json)) (tname : Json) (l : List Json)
    (rs : List String)
    (h1 : env.decideFn st.messages st.nDecide = .ok raw)
    (h2 : parse_first_json_object raw = some (.obj d))
    (hmode : resolveMode d = .str "action")
    (hname : getAttr d "tool" = tname)
    (htname : truthy tname = true)
    (hargs : pyGet d "args" = some (.arr l))
    (hobjs : l.all isObjJson = true)
    (hlen : ¬ l.length > 20)
    (hrs : rs.length = l.length)
    (hcalls : ∀ i, i < l.length →
      env.toolFn tname (l.getD i .null) (st.nTool + i) = .ok (rs.getD i "")) :
    stepBody env st step ms =
      (.cont,
        { st with
          nDecide := st.nDecide + 1,
          nTool := st.nTool + l.length,
          messages := st.messages ++
            [⟨"assistant", raw⟩,
             ⟨"user", "Tool result:\n" ++ labelResults rs⟩] }) := by
  rw [stepBody_parsed env st step ms raw (.obj d) h1 h2,
    afterParse_action_args env _ step ms raw d tname l hmode hname htname hargs hobjs,
    if_neg hlen]
  dsimp only
  rw [runTools_all_ok env tname l rs st.nTool hrs hcalls]

/-- Witness for C5 with `N = 2`: two sequential tool calls (indices 0 and 1)
and one folded user message labelled `Result 1` / `Result 2` in order. -/
theorem C5_witness :
    stepBody envBatch (initState "go") 0 8 =
      (.cont,
        ⟨[⟨"user", "go"⟩,
          ⟨"assistant",
           "\x7b\"mode\":\"action\",\"tool\":\"echo\",\"args\":[\x7b\"i\":1\x7d,\x7b\"i\":2\x7d]\x7d"⟩,
          ⟨"user", "Tool result:\nResult 1:\nout0\n\nResult 2:\nout1"⟩], 1, 0, 2⟩) :=
  C5_batch_order envBatch (initState "go") 0 8
    "\x7b\"mode\":\"action\",\"tool\":\"echo\",\"args\":[\x7b\"i\":1\x7d,\x7b\"i\":2\x7d]\x7d"
    [("mode", .str "action"), ("tool", .str "echo"),
     ("args", .arr [.obj [("i", .num 1)], .obj [("i", .num 2)]])]
    (.str "echo") [.obj [("i", .num 1)], .obj [("i", .num 2)]] ["out0", "out1"]
    rfl rfl rfl rfl rfl rfl rfl (by decide) rfl
    (by
      intro i hi
      have h2 : i < 2 := by simpa using hi
      interval_cases i <;> rfl)

/-- Claim C6: an action decision whose `args` list holds more than 20
argument objects raises the oversized-batch `RuntimeError` before any tool
call — the step errs with the tool counter unchanged — and the loop boundary
reports it as the diagnostic result string of the run. -/
theorem C6_oversized_batch (env : Env) (st : RunState) (step : Nat) (ms : Int)
    (raw : String) (d : List (String × Json)) (tname : Json) (l : List Json)
    (h1 : env.decideFn st.messages st.nDecide = .ok raw)
    (h2 : parse_first_json_object raw = some (.obj d))
    (hmode : resolveMode d = .str "action")
    (hname : getAttr d "tool" = tname)
    (htname : truthy tname = true)
    (hargs : pyGet d "args" = some (.arr l))
    (hobjs : l.all isObjJson = true)
    (hlen : l.length > 20) :
    stepBody env st step ms =
      (.err ⟨"RuntimeError", "Refusing oversized batched action with "
          ++ toString l.length ++ " calls (max 20)."⟩,
       { st with nDecide := st.nDecide + 1 })
    ∧ ∀ rem, runAux env ms (rem + 1) step st =
        ("Tool loop error.\n" ++ "RuntimeError" ++ ": "
           ++ ("Refusing oversized batched action with "
               ++ toString l.length ++ " calls (max 20).") ++ "\n"
           ++ env.traceFn ⟨"RuntimeError", "Refusing oversized batched action with "
               ++ toString l.length ++ " calls (max 20)."⟩,
         { st with nDecide := st.nDecide + 1 }) := by
  have hb : stepBody env st step ms =
      (.err ⟨"RuntimeError", "Refusing oversized batched action with "
          ++ toString l.length ++ " calls (max 20)."⟩,
       { st with nDecide := st.nDecide + 1 }) := by
    rw [stepBody_parsed env st step ms raw (.obj d) h1 h2,
      afterParse_action_args env _ step ms raw d tname l hmode hname htname hargs hobjs,
      if_pos hlen]
  refine ⟨hb, fun rem => ?_⟩
  rw [runAux, hb]

/-- Witness for C6 with `N = 21`: the step raises the oversized-batch error,
zero tool invocations happen (`nTool` stays 0). -/
theorem C6_witness :
    stepBody envOversized (initState "go") 0 8 =
      (.err ⟨"RuntimeError", "Refusing oversized batched action with "
          ++ toString (List.replicate 21 (Json.obj [])).length ++ " calls (max 20)."⟩,
       ⟨[⟨"user", "go"⟩], 1, 0, 0⟩) :=
  (C6_oversized_batch envOversized (initState "go") 0 8
    ("\x7b\"mode\":\"action\",\"tool\":\"echo\",\"args\":[" ++
        "\x7b\x7d,\x7b\x7d,\x7b\x7d,\x7b\x7d,\x7b\x7d,\x7b\x7d,\x7b\x7d,\x7b\x7d,\x7b\x7d,\x7b\x7d," ++
        "\x7b\x7d,\x7b\x7d,\x7b\x7d,\x7b\x7d,\x7b\x7d,\x7b\x7d,\x7b\x7d,\x7b\x7d,\x7b\x7d,\x7b\x7d," ++
        "\x7b\x7d]\x7d")
    [("mode", .str "action"), ("tool", .str "echo"),
     ("args", .arr (List.replicate 21 (Json.obj [])))]
    (.str "echo") (List.replicate 21 (Json.obj []))
    rfl rfl rfl rfl rfl rfl rfl (by decide)).1

/-- Witness for C4 (third branch): both parses fail, one repair call,
terminal error carrying both texts. -/
theorem C4_witness :
    decide_with_repair envDoubleBad [] 0 0 =
      (.error ⟨"RuntimeError",
        "Ollama returned malformed JSON and repair failed.\nOriginal:\n" ++ "oops"
          ++ "\n\nRepaired:\n" ++ "still not json"⟩, 1, 1) :=
  (C4_repair_policy envDoubleBad [] 0 0).2.2 "oops" "still not json" rfl rfl rfl rfl

end Harness
